import Mathlib

/-!
# webrtc-playground: signaling switch, room store and session service

A shallow embedding of the Go backend of `adwski/webrtc-playground`:

* `backend/model/model.go`          : `Announcement`, `Wire`, `Room`, `Participant`
* `backend/switch/switch.go`        : `Switch` (`Connect`, `Disconnect`, `Broadcast`,
                                      `forward`, `send`, `forwardAnnouncements`)
* `backend/storage/memory/store.go` : `MemStore` (`CreateOrJoinRoom`, `GetRoom`)
* `backend/service/service.go`      : `Service.CreateSignalingSession`
* `backend/server/websocket/server.go` : the receive loop `webSocketReceiver`

Go maps are finite maps with unique keys (`AList`); every method is a pure
function of the state it reads, returning the state it leaves.  The
environment (which `select` case fires in `send`, the order in which `range`
visits a map) is an explicit argument.
-/

namespace WebrtcPlayground

/-! ## Data model (`backend/model/model.go`) -/

/-- Go `map[string]V`: a finite map with unique string keys. -/
abbrev GoMap (V : Type) := AList (fun _ : String => V)

/-- Identity of a Go channel value (`chan Announcement`). -/
abbrev Chan := Nat

/-- The struct `model.Announcement`; the `any` payload is kept as opaque text. -/
structure Announcement where
  DST : String
  SRC : String
  Typ : String
  Payload : String
deriving DecidableEq, Repr

/-- The struct `model.Wire`: the pair of channels of one connection. -/
structure Wire where
  RX : Chan
  TX : Chan
deriving DecidableEq, Repr

/-- The struct `model.Participant`. -/
structure Participant where
  ID : String
deriving DecidableEq, Repr

/-- The struct `model.Room`. -/
structure Room where
  ID : String
  Participants : GoMap Participant

/-- A Go `error` value: one made by `errors.New` (told apart by its text, all
texts of the repository being different) or one made by `errors.Join`. -/
inductive Error where
  | new (text : String)
  | joinError (errs : List Error)

mutual
/-- The library function `errors.Is(err, target)`: `err` is `target` (for
values made by `errors.New`) or a joined error one of whose parts is. -/
def Error.Is (target : Error) : Error → Bool
  | .new text =>
    match target with
    | .new t => decide (text = t)
    | .joinError _ => false
  | .joinError errs => Error.IsAny target errs
/-- Whether `errors.Is` holds of one of the wrapped errors. -/
def Error.IsAny (target : Error) : List Error → Bool
  | [] => false
  | e :: es => Error.Is target e || Error.IsAny target es
end

/-- The library function `errors.Join`: `nil` values are dropped, and the
result is `nil` when nothing is left. -/
def errorsJoin (errs : List (Option Error)) : Option Error :=
  match errs.filterMap id with
  | [] => none
  | e :: es => some (.joinError (e :: es))

/-! ## Switch (`backend/switch/switch.go`) -/

/-- The struct `Switch`; only the routing table `fwd` carries state. -/
structure Switch where
  fwd : GoMap (GoMap Wire)
deriving DecidableEq

/-- The function `NewSwitch`: an empty routing table. -/
def NewSwitch : Switch := ⟨∅⟩

/-- Which case of the `select` in `send` fired. -/
inductive SelectCase where
  | ctxDone
  | timer
  | txReady
deriving DecidableEq, Repr

/-- One call of `send` made by `forward`: the endpoint it was looked up for,
the channel, the announcement offered and the `select` case that fired.
The announcement was put on `tx` exactly when `fired = txReady`. -/
structure SendAttempt where
  dst : String
  tx : Chan
  ann : Announcement
  fired : SelectCase
deriving DecidableEq, Repr

/-- The function `send`: returns `(sent, canceled)`. -/
def send (fired : SelectCase) (_ann : Announcement) (_tx : Chan) : Bool × Bool :=
  match fired with
  | .ctxDone => (false, true)
  | .timer => (false, false)
  | .txReady => (true, false)

/-- The order in which a `range` statement visits the entries of a map:
unspecified in Go, but each entry is visited exactly once. -/
structure RangeOrder where
  visit : List (Sigma fun _ : String => Wire) → List (Sigma fun _ : String => Wire)
  perm : ∀ l, (visit l).Perm l

/-- Visit in the stored order. -/
def RangeOrder.stored : RangeOrder := ⟨id, fun l => List.Perm.refl l⟩

/-- Visit in the reverse of the stored order. -/
def RangeOrder.reversed : RangeOrder := ⟨List.reverse, fun l => List.reverse_perm l⟩

/-- What a call of a switch method leaves behind: the switch, the value
returned and the calls of `send` it made, in order. -/
structure Outcome (α : Type) where
  sw : Switch
  ret : α
  log : List SendAttempt

/-- The `for dst, wire := range inst` loop of `forward`, entries to visit
first, then the running value of `sent` and the attempts so far. -/
def rangeLoop (o : String → SelectCase) (ann : Announcement) :
    List (Sigma fun _ : String => Wire) → Bool → List SendAttempt → Bool × List SendAttempt
  | [], sent, log => (sent, log)
  | ⟨dst, wire⟩ :: rest, sent, log =>
    if dst ≠ ann.SRC then
      let r := send (o dst) ann wire.TX
      let log1 := log ++ [⟨dst, wire.TX, ann, o dst⟩]
      if r.2 then (sent, log1)
      else rangeLoop o ann rest (if r.1 then true else sent) log1
    else rangeLoop o ann rest sent log

/-- The method `Switch.forward`. -/
def Switch.forward (ρ : RangeOrder) (o : String → SelectCase) (sw : Switch)
    (ann : Announcement) (instanceID : String) : Outcome Bool :=
  let inst : GoMap Wire := (sw.fwd.lookup instanceID).getD ∅
  if ann.DST = "" then
    let r := rangeLoop o ann (ρ.visit inst.entries) false []
    ⟨sw, r.1, r.2⟩
  else
    match inst.lookup ann.DST with
    | none => ⟨sw, false, []⟩
    | some wire =>
      let r := send (o ann.DST) ann wire.TX
      ⟨sw, r.1, [⟨ann.DST, wire.TX, ann, o ann.DST⟩]⟩

/-- The method `Switch.Broadcast`; the error returned is always `nil`. -/
def Switch.Broadcast (ρ : RangeOrder) (o : String → SelectCase) (sw : Switch)
    (ann : Announcement) (instanceID : String) : Outcome (Option Error) :=
  let ann1 := { ann with DST := "" }
  let r := sw.forward ρ o ann1 instanceID
  ⟨r.sw, none, r.log⟩

/-- The method `Switch.Disconnect`. -/
def Switch.Disconnect (sw : Switch) (instanceID endpoint : String) : Switch × Option Error :=
  match sw.fwd.lookup instanceID with
  | some inst => (⟨sw.fwd.insert instanceID (inst.erase endpoint)⟩, none)
  | none => (sw, none)

/-- A goroutine started with `go`. -/
inductive Spawned where
  | forwardAnnouncements (instanceID : String) (rx : Chan)
  | broadcast (ann : Announcement) (roomID : String)
deriving DecidableEq, Repr

/-- What `Switch.Connect` leaves behind: the switch, the error returned and
the goroutine its deferred function starts. -/
structure Connected where
  sw : Switch
  err : Option Error
  spawned : List Spawned

/-- The method `Switch.Connect`. -/
def Switch.Connect (sw : Switch) (instanceID endpoint : String) (wire : Wire) : Connected :=
  let inst : GoMap Wire :=
    match sw.fwd.lookup instanceID with
    | some inst => inst
    | none => ∅
  let inst1 := inst.insert endpoint wire
  ⟨⟨sw.fwd.insert instanceID inst1⟩, none, [.forwardAnnouncements instanceID wire.RX]⟩

/-- The body of `case ann := <-rx` in `Switch.forwardAnnouncements`: what the
forwarding loop does with one announcement taken from a wire's `RX`. -/
def Switch.forwardAnnouncementsStep (ρ : RangeOrder) (o : String → SelectCase) (sw : Switch)
    (instanceID : String) (ann : Announcement) : Outcome Unit :=
  if ann.SRC = "" then ⟨sw, (), []⟩
  else
    let r := sw.forward ρ o ann instanceID
    ⟨r.sw, (), r.log⟩

/-- The entry of `(instanceID, endpoint)` in the routing table. -/
def Switch.route (sw : Switch) (instanceID endpoint : String) : Option Wire :=
  (sw.fwd.lookup instanceID).bind fun inst => inst.lookup endpoint

/-! ## Receive loop (`backend/server/websocket/server.go`) -/

/-- What one pass of `RecvLoop` meets: the context is done; `ReadMessage`
fails; or it returns a frame, with the result of `json.Unmarshal` and whether
the inner `select` takes `rx <- ann` (`handed`) or `<-ctx.Done()`. -/
inductive RecvEvent where
  | ctxDone
  | readError
  | message (decoded : Option Announcement) (handed : Bool)
deriving DecidableEq

/-- The loop of `webSocketReceiver` for the connection authenticated as
`userID`: the announcements it puts on `rx`, in order. -/
def webSocketReceiver (userID : String) : List RecvEvent → List Announcement
  | [] => []
  | .ctxDone :: _ => []
  | .readError :: _ => []
  | .message none _ :: rest => webSocketReceiver userID rest
  | .message (some ann) handed :: rest =>
    let ann1 := { ann with SRC := userID }
    if handed then ann1 :: webSocketReceiver userID rest else []

/-! ## Send loop (`backend/server/websocket/server.go`) -/

/-- A call the send loop makes on the websocket connection or on the writer
it obtained, with whether it returned without error. -/
inductive ConnCall where
  | SetWriteDeadline (ok : Bool)
  | WritePing (ok : Bool)
  | NextWriter (ok : Bool)
  | Write (msg : Announcement) (ok : Bool)
  | Close (ok : Bool)
deriving DecidableEq, Repr

/-- What one pass of `SendLoop` meets: the context is done; the ping ticker
fires, with the results of `SetWriteDeadline` and of the ping `WriteMessage`;
`tx` is closed; or `tx` yields a message, with the results of `json.Marshal`,
`SetWriteDeadline`, `NextWriter`, `Write` and `Close`.  The result of a call
that is not reached is not looked at. -/
inductive SenderEvent where
  | ctxDone
  | tick (deadlineOk pingOk : Bool)
  | txClosed
  | outbound (msg : Announcement) (marshalOk deadlineOk writerOk writeOk closeOk : Bool)
deriving DecidableEq, Repr

/-- A run of the send loop: the calls made on the connection, in order, the
number of passes of the loop begun, and whether the loop was left by
`break SendLoop` (otherwise it waits for a further event). -/
structure SenderRun where
  calls : List ConnCall
  passes : Nat
  exited : Bool
deriving DecidableEq, Repr

/-- A run that first makes `calls` in one more pass and then goes on as `r`. -/
def SenderRun.after (calls : List ConnCall) (r : SenderRun) : SenderRun :=
  ⟨calls ++ r.calls, r.passes + 1, r.exited⟩

/-- The loop `SendLoop` of `webSocketSender` over the events it meets. -/
def webSocketSender : List SenderEvent → SenderRun
  | [] => ⟨[], 0, false⟩
  | .ctxDone :: _ => ⟨[], 1, true⟩
  | .tick deadlineOk pingOk :: rest =>
    if !deadlineOk then ⟨[.SetWriteDeadline false], 1, true⟩
    else (webSocketSender rest).after [.SetWriteDeadline true, .WritePing pingOk]
  | .txClosed :: _ => ⟨[], 1, true⟩
  | .outbound msg marshalOk deadlineOk writerOk writeOk closeOk :: rest =>
    if !marshalOk then ⟨[], 1, true⟩
    else if !deadlineOk then ⟨[.SetWriteDeadline false], 1, true⟩
    else if !writerOk then ⟨[.SetWriteDeadline true, .NextWriter false], 1, true⟩
    else if !writeOk then
      ⟨[.SetWriteDeadline true, .NextWriter true, .Write msg false], 1, true⟩
    else if !closeOk then
      ⟨[.SetWriteDeadline true, .NextWriter true, .Write msg true, .Close false], 1, true⟩
    else
      (webSocketSender rest).after
        [.SetWriteDeadline true, .NextWriter true, .Write msg true, .Close true]

/-! ## Room store (`backend/storage/memory/store.go`) -/

def defaultMaxParticipants : Nat := 2

def ErrRoomIsFull : Error := .new "room is full"
def ErrRoomNotFound : Error := .new "room is not found"

/-- The struct `MemStore`. -/
structure MemStore where
  db : GoMap Room

/-- The function `NewMemStore`. -/
def NewMemStore : MemStore := ⟨∅⟩

/-- The method `MemStore.CreateOrJoinRoom`: the store it leaves and the
`(*model.Room, error)` pair it returns. -/
def MemStore.CreateOrJoinRoom (ms : MemStore) (roomID userID : String) :
    MemStore × Except Error Room :=
  match ms.db.lookup roomID with
  | none =>
    let room : Room := ⟨roomID, (∅ : GoMap Participant).insert userID ⟨userID⟩⟩
    (⟨ms.db.insert roomID room⟩, .ok room)
  | some room =>
    if room.Participants.entries.length = defaultMaxParticipants
        ∧ room.Participants.lookup userID = none then
      (ms, .error ErrRoomIsFull)
    else
      let room1 : Room := { room with Participants := room.Participants.insert userID ⟨userID⟩ }
      (⟨ms.db.insert roomID room1⟩, .ok room1)

/-- The method `MemStore.GetRoom`. -/
def MemStore.GetRoom (ms : MemStore) (roomID : String) : Except Error Room :=
  match ms.db.lookup roomID with
  | none => .error ErrRoomNotFound
  | some room => .ok room

/-! ## Session service (`backend/service/service.go`) -/

def ErrJoin : Error := .new "unable to join room"
def ErrGet : Error := .new "unable to get room"
def ErrNotAMember : Error := .new "user is not a member of this room"
def ErrConnect : Error := .new "unable to connect"
def ErrDisconnect : Error := .new "unable to disconnect"

def AnnouncementTypeJoined : String := "joined"
def AnnouncementTypeLeft : String := "left"

/-- The struct `Service` over the room store and the switch. -/
structure Service where
  store : MemStore
  sw : Switch

/-- What a session call leaves behind: the service, the error returned and
the goroutines started on the way. -/
structure SessionResult where
  svc : Service
  err : Option Error
  spawned : List Spawned

/-- The method `Service.CreateSignalingSession`. -/
def Service.CreateSignalingSession (svc : Service) (roomID userID : String) (wire : Wire) :
    SessionResult :=
  match svc.store.GetRoom roomID with
  | .error err => ⟨svc, errorsJoin [some ErrGet, some err], []⟩
  | .ok room =>
    match room.Participants.lookup userID with
    | none => ⟨svc, some ErrNotAMember, []⟩
    | some _ =>
      let c := svc.sw.Connect roomID userID wire
      match c.err with
      | some err => ⟨{ svc with sw := c.sw }, errorsJoin [some ErrConnect, some err], c.spawned⟩
      | none =>
        let ann : Announcement := ⟨"", userID, AnnouncementTypeJoined, ""⟩
        ⟨{ svc with sw := c.sw }, none, c.spawned ++ [.broadcast ann roomID]⟩

/-- The method `Service.DeleteSignalingSession`. -/
def Service.DeleteSignalingSession (svc : Service) (roomID userID : String) : SessionResult :=
  let d := svc.sw.Disconnect roomID userID
  match d.2 with
  | some err => ⟨{ svc with sw := d.1 }, errorsJoin [some ErrDisconnect, some err], []⟩
  | none =>
    let ann : Announcement := ⟨"", userID, AnnouncementTypeLeft, ""⟩
    ⟨{ svc with sw := d.1 }, none, [.broadcast ann roomID]⟩

/-- The method `Server.destroySession`, which `handleWSConn` calls once both
loops of a connection have ended: it is given the room and user ids only, and
an error is logged, not returned. -/
def destroySession (svc : Service) (roomID userID : String) : Service :=
  (svc.DeleteSignalingSession roomID userID).svc

/-! ## Derived notions used in the statements -/

/-- The attempt `forward` records when it calls `send` for a visited entry. -/
def attemptOf (o : String → SelectCase) (ann : Announcement)
    (e : Sigma fun _ : String => Wire) : SendAttempt :=
  ⟨e.1, e.2.TX, ann, o e.1⟩

/-- The attempts of the fan-out over the visited entries, without the
accumulators of `rangeLoop`: the loop stops after a canceled send. -/
def fanOut (o : String → SelectCase) (ann : Announcement) :
    List (Sigma fun _ : String => Wire) → List SendAttempt
  | [] => []
  | e :: rest =>
    if e.1 ≠ ann.SRC then
      if o e.1 = .ctxDone then [attemptOf o ann e] else attemptOf o ann e :: fanOut o ann rest
    else fanOut o ann rest

/-- The entries `forward` ranges over for a room, in the order of the visit. -/
def visited (ρ : RangeOrder) (sw : Switch) (instanceID : String) :
    List (Sigma fun _ : String => Wire) :=
  ρ.visit ((sw.fwd.lookup instanceID).getD ∅).entries

/-- The participants of a room of the store, as a set; `none` when the store
has no such room. -/
def MemStore.members (ms : MemStore) (roomID : String) : Option (Finset String) :=
  (ms.db.lookup roomID).map fun room => room.Participants.keys.toFinset

/-- The store after a sequence of `CreateOrJoinRoom(roomID, userID)` calls,
whether each of them succeeds or fails. -/
def MemStore.joinAll (ms : MemStore) : List (String × String) → MemStore
  | [] => ms
  | (roomID, userID) :: rest => (ms.CreateOrJoinRoom roomID userID).1.joinAll rest

/-- Every room of the store has at least one participant and at most
`defaultMaxParticipants`. -/
def MemStore.Bounded (ms : MemStore) : Prop :=
  ∀ r room, ms.db.lookup r = some room →
    1 ≤ room.Participants.entries.length
      ∧ room.Participants.entries.length ≤ defaultMaxParticipants

/-- Whether the pass of `SendLoop` that meets the event ends in
`break SendLoop`. -/
def SenderEvent.breaks : SenderEvent → Bool
  | .ctxDone => true
  | .tick deadlineOk _ => !deadlineOk
  | .txClosed => true
  | .outbound _ marshalOk deadlineOk writerOk writeOk closeOk =>
    !(marshalOk && deadlineOk && writerOk && writeOk && closeOk)

/-! ## Concrete data for the worked instances -/

/-- Room `r1` with endpoints `a`, `b`, `c` and room `r2` with endpoint `d`. -/
def demoSwitch : Switch :=
  ((((NewSwitch.Connect "r1" "a" ⟨1, 2⟩).sw.Connect "r1" "b" ⟨3, 4⟩).sw.Connect
    "r1" "c" ⟨5, 6⟩).sw.Connect "r2" "d" ⟨7, 8⟩).sw

/-- Endpoint `c` does not drain its channel in time, the others do. -/
def demoSlowC (d : String) : SelectCase := if d = "c" then .timer else .txReady

/-- An offer broadcast by `a`. -/
def demoOffer : Announcement := ⟨"", "a", "offer", "sdp"⟩

/-- Room `r` with endpoint `a`, then endpoint `e` connected twice. -/
def demoReconnect : Switch :=
  (((NewSwitch.Connect "r" "a" ⟨1, 2⟩).sw.Connect "r" "e" ⟨3, 4⟩).sw.Connect "r" "e" ⟨5, 6⟩).sw

/-- A store with room `r1` joined by `a`, and an empty routing table. -/
def demoService : Service := ⟨(NewMemStore.CreateOrJoinRoom "r1" "a").1, NewSwitch⟩

/-- A store whose room `r1` has the two members `a` and `b`. -/
def demoFullStore : MemStore := NewMemStore.joinAll [("r1", "a"), ("r1", "b")]

/-! ## The fan-out loop -/

theorem rangeLoop_eq (o : String → SelectCase) (ann : Announcement) :
    ∀ (l : List (Sigma fun _ : String => Wire)) (sent : Bool) (log : List SendAttempt),
      rangeLoop o ann l sent log
        = (sent || (fanOut o ann l).any (fun a => decide (a.fired = .txReady)),
            log ++ fanOut o ann l) := by
  intro l
  induction l with
  | nil => intro sent log; simp [rangeLoop, fanOut]
  | cons e rest ih =>
    intro sent log
    obtain ⟨dst, wire⟩ := e
    by_cases hd : dst = ann.SRC
    · simp [rangeLoop, fanOut, hd, ih]
    · cases hfired : o dst <;>
        simp [rangeLoop, fanOut, hd, ih, send, hfired, attemptOf]

theorem fanOut_mem (o : String → SelectCase) (ann : Announcement) :
    ∀ (l : List (Sigma fun _ : String => Wire)) (a : SendAttempt),
      a ∈ fanOut o ann l → ∃ e ∈ l, e.1 ≠ ann.SRC ∧ a = attemptOf o ann e := by
  intro l
  induction l with
  | nil => intro a h; simp [fanOut] at h
  | cons e rest ih =>
    intro a h
    by_cases hd : e.1 = ann.SRC
    · simp only [fanOut, hd, ne_eq, not_true_eq_false, if_false] at h
      obtain ⟨e1, he1, h1⟩ := ih a h
      exact ⟨e1, List.mem_cons_of_mem _ he1, h1⟩
    · by_cases hc : o e.1 = .ctxDone
      · simp only [fanOut, hd, ne_eq, not_false_eq_true, if_true, hc, List.mem_singleton] at h
        exact ⟨e, List.mem_cons_self _ _, hd, h⟩
      · simp only [fanOut, hd, ne_eq, not_false_eq_true, if_true, hc, if_false,
          List.mem_cons] at h
        rcases h with h | h
        · exact ⟨e, List.mem_cons_self _ _, hd, h⟩
        · obtain ⟨e1, he1, h1⟩ := ih a h
          exact ⟨e1, List.mem_cons_of_mem _ he1, h1⟩

theorem fanOut_noCancel (o : String → SelectCase) (ann : Announcement)
    (hnc : ∀ d, o d ≠ .ctxDone) :
    ∀ l : List (Sigma fun _ : String => Wire),
      fanOut o ann l = (l.filter fun e => decide (e.1 ≠ ann.SRC)).map (attemptOf o ann) := by
  intro l
  induction l with
  | nil => simp [fanOut]
  | cons e rest ih =>
    by_cases hd : e.1 = ann.SRC
    · simp [fanOut, hd, ih]
    · simp [fanOut, hd, ih, hnc e.1]

/-- The fan-out is an initial part of the attempts for all entries visited. -/
theorem fanOut_initial (o : String → SelectCase) (ann : Announcement) :
    ∀ l : List (Sigma fun _ : String => Wire),
      fanOut o ann l <+: (l.filter fun e => decide (e.1 ≠ ann.SRC)).map (attemptOf o ann) := by
  intro l
  induction l with
  | nil => simp [fanOut]
  | cons e rest ih =>
    by_cases hd : e.1 = ann.SRC
    · simpa [fanOut, hd] using ih
    · by_cases hc : o e.1 = .ctxDone
      · simp [fanOut, hd, hc, List.prefix_cons_inj]
      · simpa [fanOut, hd, hc, List.prefix_cons_inj] using ih

/-- Only the last attempt of a fan-out can be a canceled one. -/
theorem fanOut_dropLast (o : String → SelectCase) (ann : Announcement) :
    ∀ (l : List (Sigma fun _ : String => Wire)) (a : SendAttempt),
      a ∈ (fanOut o ann l).dropLast → a.fired ≠ .ctxDone := by
  intro l
  induction l with
  | nil => intro a h; simp [fanOut] at h
  | cons e rest ih =>
    intro a h
    by_cases hd : e.1 = ann.SRC
    · simp only [fanOut, hd, ne_eq, not_true_eq_false, if_false] at h
      exact ih a h
    · by_cases hc : o e.1 = .ctxDone
      · simp [fanOut, hd, hc] at h
      · simp only [fanOut, hd, ne_eq, not_false_eq_true, if_true, hc, if_false] at h
        cases hrest : fanOut o ann rest with
        | nil => simp [hrest] at h
        | cons b bs =>
          rw [hrest, List.dropLast_cons₂, List.mem_cons] at h
          rcases h with h | h
          · subst h; simpa [attemptOf] using hc
          · exact ih a (by rw [hrest]; exact h)

/-- A fan-out visits every entry unless its last attempt was canceled. -/
theorem fanOut_full_or_canceled (o : String → SelectCase) (ann : Announcement) :
    ∀ l : List (Sigma fun _ : String => Wire),
      fanOut o ann l = (l.filter fun e => decide (e.1 ≠ ann.SRC)).map (attemptOf o ann)
        ∨ ∃ a, (fanOut o ann l).getLast? = some a ∧ a.fired = .ctxDone := by
  intro l
  induction l with
  | nil => simp [fanOut]
  | cons e rest ih =>
    by_cases hd : e.1 = ann.SRC
    · simpa [fanOut, hd] using ih
    · by_cases hc : o e.1 = .ctxDone
      · right
        exact ⟨attemptOf o ann e, by simp [fanOut, hd, hc], by simpa [attemptOf] using hc⟩
      · rcases ih with ih | ⟨a, ha, hca⟩
        · left; simp [fanOut, hd, hc, ih]
        · right
          refine ⟨a, ?_, hca⟩
          simp only [fanOut, hd, ne_eq, not_false_eq_true, if_true, hc, if_false]
          cases hrest : fanOut o ann rest with
          | nil => simp [hrest] at ha
          | cons b bs => rw [hrest] at ha; simpa [List.getLast?_cons_cons] using ha

/-! ## Routing table lemmas -/

theorem mem_visited (ρ : RangeOrder) (sw : Switch) (R d : String) (w : Wire) :
    (⟨d, w⟩ : Sigma fun _ : String => Wire) ∈ visited ρ sw R ↔ sw.route R d = some w := by
  unfold visited Switch.route
  rw [(ρ.perm _).mem_iff]
  cases h : sw.fwd.lookup R with
  | none => simp
  | some inst =>
    simp only [Option.getD_some, Option.some_bind]
    rw [← AList.mem_lookup_iff]
    simp [Option.mem_def]

theorem visited_keys_nodup (ρ : RangeOrder) (sw : Switch) (R : String) :
    ((visited ρ sw R).map Sigma.fst).Nodup := by
  unfold visited
  have hp := (ρ.perm ((sw.fwd.lookup R).getD ∅).entries).map Sigma.fst
  exact hp.nodup_iff.mpr ((sw.fwd.lookup R).getD ∅).keys_nodup

theorem forward_broadcast (ρ : RangeOrder) (o : String → SelectCase) (sw : Switch)
    (ann : Announcement) (R : String) (hdst : ann.DST = "") :
    (sw.forward ρ o ann R).sw = sw
      ∧ (sw.forward ρ o ann R).ret
          = (fanOut o ann (visited ρ sw R)).any (fun a => decide (a.fired = .txReady))
      ∧ (sw.forward ρ o ann R).log = fanOut o ann (visited ρ sw R) := by
  simp [Switch.forward, hdst, rangeLoop_eq, visited]

theorem forward_unicast (ρ : RangeOrder) (o : String → SelectCase) (sw : Switch)
    (ann : Announcement) (R : String) (hdst : ann.DST ≠ "") :
    (sw.forward ρ o ann R).sw = sw
      ∧ (sw.forward ρ o ann R).ret
          = (match sw.route R ann.DST with
              | none => false
              | some _ => decide (o ann.DST = .txReady))
      ∧ (sw.forward ρ o ann R).log
          = (match sw.route R ann.DST with
              | none => []
              | some wire => [⟨ann.DST, wire.TX, ann, o ann.DST⟩]) := by
  unfold Switch.forward Switch.route
  cases hR : sw.fwd.lookup R with
  | none => simp [hdst]
  | some inst =>
    cases hE : inst.lookup ann.DST with
    | none => simp [hdst, hE]
    | some wire => cases hf : o ann.DST <;> simp [hdst, hE, send, hf]

theorem route_Connect (sw : Switch) (R E : String) (w : Wire) (R1 E1 : String) :
    (sw.Connect R E w).sw.route R1 E1
      = if R1 = R ∧ E1 = E then some w else sw.route R1 E1 := by
  unfold Switch.Connect Switch.route
  by_cases hR : R1 = R
  · subst hR
    by_cases hE : E1 = E
    · subst hE; simp
    · cases h : sw.fwd.lookup R1 with
      | none =>
        simp only [AList.lookup_insert, Option.some_bind, Option.none_bind]
        rw [AList.lookup_insert_ne hE]
        simp [hE]
      | some inst => simp [hE, AList.lookup_insert_ne]
  · simp [hR, AList.lookup_insert_ne]

theorem route_Disconnect (sw : Switch) (R E : String) (R1 E1 : String) :
    (sw.Disconnect R E).1.route R1 E1
      = if R1 = R ∧ E1 = E then none else sw.route R1 E1 := by
  unfold Switch.Disconnect Switch.route
  cases h : sw.fwd.lookup R with
  | none =>
    by_cases hR : R1 = R
    · subst hR; simp [h]
    · simp [hR]
  | some inst =>
    by_cases hR : R1 = R
    · subst hR
      by_cases hE : E1 = E
      · subst hE; simp
      · simp [hE, h, AList.lookup_erase_ne]
    · simp [hR, AList.lookup_insert_ne]

/-- Every call of `send` in a broadcast is made for an endpoint registered
in the room, other than the source, on the TX of its wire. -/
theorem broadcast_attempt (ρ : RangeOrder) (o : String → SelectCase) (sw : Switch)
    (ann : Announcement) (R : String) (hdst : ann.DST = "") (a : SendAttempt)
    (ha : a ∈ (sw.forward ρ o ann R).log) :
    a.dst ≠ ann.SRC ∧ a.ann = ann ∧ a.fired = o a.dst
      ∧ ∃ w, sw.route R a.dst = some w ∧ a.tx = w.TX := by
  rw [(forward_broadcast ρ o sw ann R hdst).2.2] at ha
  obtain ⟨⟨d, w⟩, he, hne, rfl⟩ := fanOut_mem o ann _ a ha
  exact ⟨hne, rfl, rfl, w, (mem_visited ρ sw R d w).mp he, rfl⟩

/-- A broadcast calls `send` for a registered endpoint other than the source
unless a send for another endpoint was canceled. -/
theorem broadcast_attempts_unless_canceled (ρ : RangeOrder) (o : String → SelectCase)
    (sw : Switch) (ann : Announcement) (R E : String) (w : Wire) (hdst : ann.DST = "")
    (hroute : sw.route R E = some w) (hsrc : E ≠ ann.SRC)
    (hnc : ∀ a ∈ (sw.forward ρ o ann R).log, a.dst ≠ E → a.fired ≠ .ctxDone) :
    (⟨E, w.TX, ann, o E⟩ : SendAttempt) ∈ (sw.forward ρ o ann R).log := by
  have hlog := (forward_broadcast ρ o sw ann R hdst).2.2
  rcases fanOut_full_or_canceled o ann (visited ρ sw R) with hfull | ⟨a, hlast, hca⟩
  · rw [hlog, hfull]
    refine List.mem_map.mpr ⟨⟨E, w⟩, ?_, rfl⟩
    exact List.mem_filter.mpr ⟨(mem_visited ρ sw R E w).mpr hroute, by simpa using hsrc⟩
  · have hmem : a ∈ (sw.forward ρ o ann R).log := by
      rw [hlog]; exact List.mem_of_getLast?_eq_some hlast
    have hE : a.dst = E := by
      by_contra hne
      exact hnc a hmem hne hca
    obtain ⟨_, hann, hfired, w1, hw1, htx⟩ := broadcast_attempt ρ o sw ann R hdst a hmem
    rw [hE, hroute] at hw1
    cases hw1
    have : a = ⟨E, w.TX, ann, o E⟩ := by
      cases a; simp_all
    rw [← this]; exact hmem

/-- Every call of `send` made by `forward` offers the announcement that
`forward` was given. -/
theorem forward_offers_its_argument (ρ : RangeOrder) (o : String → SelectCase) (sw : Switch)
    (ann : Announcement) (R : String) (a : SendAttempt)
    (ha : a ∈ (sw.forward ρ o ann R).log) : a.ann = ann := by
  by_cases hdst : ann.DST = ""
  · exact (broadcast_attempt ρ o sw ann R hdst a ha).2.1
  · rw [(forward_unicast ρ o sw ann R hdst).2.2] at ha
    cases hr : sw.route R ann.DST with
    | none => simp [hr] at ha
    | some w =>
      simp only [hr, List.mem_singleton] at ha
      rw [ha]

/-! ## Broadcast reaches the room and nothing else -/

/-- C1: a broadcast (empty dst) from source S in room R, with every send
either delivered or timed out, calls `send` once for each endpoint registered
under R other than S, on that endpoint's TX, and for no other endpoint (none
of another room); the announcement offered is the one given; an endpoint
whose own send is delivered gets it whatever happens at the others.
`Broadcast` makes the same calls and returns nil. -/
theorem broadcast_reaches_exactly_the_room (ρ : RangeOrder) (o : String → SelectCase)
    (sw : Switch) (ann : Announcement) (R : String)
    (hdst : ann.DST = "") (hnc : ∀ d, o d ≠ .ctxDone) :
    (∀ d tx, (∃ a ∈ (sw.forward ρ o ann R).log, a.dst = d ∧ a.tx = tx)
        ↔ (d ≠ ann.SRC ∧ ∃ w, sw.route R d = some w ∧ w.TX = tx))
    ∧ ((sw.forward ρ o ann R).log.map SendAttempt.dst).Nodup
    ∧ (∀ a ∈ (sw.forward ρ o ann R).log, a.ann = ann ∧ a.fired = o a.dst)
    ∧ (∀ d w, sw.route R d = some w → d ≠ ann.SRC → o d = .txReady →
        (⟨d, w.TX, ann, .txReady⟩ : SendAttempt) ∈ (sw.forward ρ o ann R).log)
    ∧ (sw.Broadcast ρ o ann R).log = (sw.forward ρ o ann R).log
    ∧ (sw.Broadcast ρ o ann R).ret = none := by
  have hlog : (sw.forward ρ o ann R).log
      = ((visited ρ sw R).filter fun e => decide (e.1 ≠ ann.SRC)).map (attemptOf o ann) := by
    rw [(forward_broadcast ρ o sw ann R hdst).2.2, fanOut_noCancel o ann hnc]
  have hann : ({ ann with DST := "" } : Announcement) = ann := by
    cases ann; simp_all
  refine ⟨?_, ?_, ?_, ?_, ?_, ?_⟩
  · intro d tx
    rw [hlog]
    constructor
    · rintro ⟨a, ha, rfl, rfl⟩
      obtain ⟨⟨d, w⟩, he, rfl⟩ := List.mem_map.mp ha
      rw [List.mem_filter] at he
      exact ⟨by simpa using he.2, w, (mem_visited ρ sw R d w).mp he.1, rfl⟩
    · rintro ⟨hd, w, hw, rfl⟩
      refine ⟨attemptOf o ann ⟨d, w⟩, List.mem_map.mpr ⟨⟨d, w⟩, ?_, rfl⟩, rfl, rfl⟩
      exact List.mem_filter.mpr ⟨(mem_visited ρ sw R d w).mpr hw, by simpa using hd⟩
  · rw [hlog, List.map_map]
    have hfun : (SendAttempt.dst ∘ attemptOf o ann) = Sigma.fst := by
      funext e; rfl
    rw [hfun]
    exact ((List.filter_sublist _).map Sigma.fst).nodup (visited_keys_nodup ρ sw R)
  · intro a ha
    rw [hlog] at ha
    obtain ⟨e, _, rfl⟩ := List.mem_map.mp ha
    exact ⟨rfl, rfl⟩
  · intro d w hw hd hfired
    rw [hlog]
    refine List.mem_map.mpr ⟨⟨d, w⟩, ?_, ?_⟩
    · exact List.mem_filter.mpr ⟨(mem_visited ρ sw R d w).mpr hw, by simpa using hd⟩
    · simp [attemptOf, hfired]
  · simp [Switch.Broadcast, hann]
  · rfl

/-- C1 at `demoSwitch`: `a` broadcasts in `r1` while `c` times out; `b` still
gets the offer, and `d` of room `r2` is not tried. -/
theorem broadcast_reaches_exactly_the_room_witness :
    demoOffer.DST = "" ∧ (∀ d, demoSlowC d ≠ .ctxDone)
      ∧ (⟨"b", 4, demoOffer, .txReady⟩ : SendAttempt)
          ∈ (demoSwitch.forward RangeOrder.stored demoSlowC demoOffer "r1").log
      ∧ ¬ ∃ a ∈ (demoSwitch.forward RangeOrder.stored demoSlowC demoOffer "r1").log,
          a.dst = "d" ∧ a.tx = 8 := by
  have hnc : ∀ d, demoSlowC d ≠ .ctxDone := by
    intro d; unfold demoSlowC; split <;> simp
  have h := broadcast_reaches_exactly_the_room RangeOrder.stored demoSlowC demoSwitch
    demoOffer "r1" rfl hnc
  refine ⟨rfl, hnc, h.2.2.2.1 "b" ⟨3, 4⟩ (by decide) (by decide) (by decide), ?_⟩
  intro hex
  have := (h.1 "d" 8).mp hex
  obtain ⟨_, w, hw, _⟩ := this
  have hnone : demoSwitch.route "r1" "d" = none := by decide
  rw [hnone] at hw
  exact Option.noConfusion hw

/-! ## Reconnecting the same endpoint -/

/-- C2, as stated, fails: after `e` is connected twice in room `r` (second
wire with TX 6), a broadcast from `s` that visits `a` first and is canceled
during the send to `a` stops there and never calls `send` on TX 6. -/
theorem reconnect_broadcast_canceled_counterexample :
    (demoReconnect.forward RangeOrder.reversed (fun _ => .ctxDone)
        ⟨"", "s", "offer", "sdp"⟩ "r").log
      = [⟨"a", 2, ⟨"", "s", "offer", "sdp"⟩, .ctxDone⟩]
    ∧ ¬ ∃ a ∈ (demoReconnect.forward RangeOrder.reversed (fun _ => .ctxDone)
        ⟨"", "s", "offer", "sdp"⟩ "r").log, a.tx = 6 := by
  decide

/-- C2 (amended): after `Connect(R, E, w1)` and `Connect(R, E, w2)` both calls
have returned nil, the table maps `(R, E)` to `w2` and every other entry is as
before; a later unicast in R with dst = E calls `send` once, on `w2.TX`; in a
later broadcast in R every call of `send` made for E is on `w2.TX`, and one is
made, from any other source, unless a send for another endpoint was
canceled. -/
theorem connect_twice_routes_to_second (sw : Switch) (R E : String) (w1 w2 : Wire) :
    (sw.Connect R E w1).err = none
    ∧ ((sw.Connect R E w1).sw.Connect R E w2).err = none
    ∧ ((sw.Connect R E w1).sw.Connect R E w2).sw.route R E = some w2
    ∧ (∀ R1 E1, ¬ (R1 = R ∧ E1 = E) →
        ((sw.Connect R E w1).sw.Connect R E w2).sw.route R1 E1 = sw.route R1 E1)
    ∧ (∀ ρ o ann, ann.DST = E → E ≠ "" →
        (((sw.Connect R E w1).sw.Connect R E w2).sw.forward ρ o ann R).log
          = [⟨E, w2.TX, ann, o E⟩])
    ∧ (∀ ρ o ann, ann.DST = "" →
        ∀ a ∈ (((sw.Connect R E w1).sw.Connect R E w2).sw.forward ρ o ann R).log,
          a.dst = E → a.tx = w2.TX)
    ∧ (∀ ρ o ann, ann.DST = "" → ann.SRC ≠ E →
        (∀ a ∈ (((sw.Connect R E w1).sw.Connect R E w2).sw.forward ρ o ann R).log,
          a.dst ≠ E → a.fired ≠ .ctxDone) →
        (⟨E, w2.TX, ann, o E⟩ : SendAttempt)
          ∈ (((sw.Connect R E w1).sw.Connect R E w2).sw.forward ρ o ann R).log) := by
  have hroute : ((sw.Connect R E w1).sw.Connect R E w2).sw.route R E = some w2 := by
    rw [route_Connect]; simp
  refine ⟨rfl, rfl, hroute, ?_, ?_, ?_, ?_⟩
  · intro R1 E1 hne
    rw [route_Connect, if_neg hne, route_Connect, if_neg hne]
  · intro ρ o ann hdst hE
    have hd : ann.DST ≠ "" := by rw [hdst]; exact hE
    rw [(forward_unicast ρ o _ ann R hd).2.2, hdst, hroute]
  · intro ρ o ann hdst a ha hE
    obtain ⟨_, _, _, w, hw, htx⟩ := broadcast_attempt ρ o _ ann R hdst a ha
    rw [hE, hroute] at hw
    cases hw
    exact htx
  · intro ρ o ann hdst hsrc hnc
    exact broadcast_attempts_unless_canceled ρ o _ ann R E w2 hdst hroute (Ne.symm hsrc) hnc

/-- C2 (amended) at `demoReconnect`: a unicast to `e` goes to TX 6, and so
does the broadcast of `a` when nothing is canceled. -/
theorem connect_twice_routes_to_second_witness :
    (demoReconnect.forward RangeOrder.stored (fun _ => .txReady)
        ⟨"e", "a", "offer", "sdp"⟩ "r").log
      = [⟨"e", 6, ⟨"e", "a", "offer", "sdp"⟩, .txReady⟩]
    ∧ (⟨"e", 6, ⟨"", "a", "offer", "sdp"⟩, .txReady⟩ : SendAttempt)
        ∈ (demoReconnect.forward RangeOrder.reversed (fun _ => .txReady)
            ⟨"", "a", "offer", "sdp"⟩ "r").log := by
  have h := connect_twice_routes_to_second (NewSwitch.Connect "r" "a" ⟨1, 2⟩).sw "r" "e"
    ⟨3, 4⟩ ⟨5, 6⟩
  refine ⟨h.2.2.2.2.1 RangeOrder.stored (fun _ => .txReady) ⟨"e", "a", "offer", "sdp"⟩ rfl
      (by decide), ?_⟩
  exact h.2.2.2.2.2.2 RangeOrder.reversed (fun _ => .txReady) ⟨"", "a", "offer", "sdp"⟩ rfl
    (by decide)
    (by
      intro a ha _
      rw [(broadcast_attempt _ _ _ _ _ rfl a ha).2.2.1]
      simp)

/-! ## Disconnecting an endpoint -/

/-- C3: `Disconnect(R, E)` returns nil whether or not `(R, E)` is registered,
leaves `(R, E)` without an entry and every other entry as it was, and after
it no `Broadcast` in R, whoever the source and whatever the sends do, calls
`send` for E: every call is made for another endpoint still registered in R,
on that endpoint's TX, so the TX of the wire E had is not used unless another
endpoint of R is registered with the same channel. -/
theorem disconnect_stops_delivery (sw : Switch) (R E : String) :
    (sw.Disconnect R E).2 = none
    ∧ (sw.Disconnect R E).1.route R E = none
    ∧ (∀ R1 E1, ¬ (R1 = R ∧ E1 = E) → (sw.Disconnect R E).1.route R1 E1 = sw.route R1 E1)
    ∧ (∀ ρ o ann, ∀ a ∈ ((sw.Disconnect R E).1.Broadcast ρ o ann R).log,
        a.dst ≠ E ∧ ∃ w, sw.route R a.dst = some w ∧ a.tx = w.TX)
    ∧ (∀ w, sw.route R E = some w →
        (∀ E1 w1, E1 ≠ E → sw.route R E1 = some w1 → w1.TX ≠ w.TX) →
        ∀ ρ o ann, ∀ a ∈ ((sw.Disconnect R E).1.Broadcast ρ o ann R).log, a.tx ≠ w.TX) := by
  have hret : (sw.Disconnect R E).2 = none := by
    unfold Switch.Disconnect; cases sw.fwd.lookup R <;> rfl
  have hlog : ∀ ρ o ann, ∀ a ∈ ((sw.Disconnect R E).1.Broadcast ρ o ann R).log,
      a.dst ≠ E ∧ ∃ w, sw.route R a.dst = some w ∧ a.tx = w.TX := by
    intro ρ o ann a ha
    obtain ⟨_, _, _, w, hw, htx⟩ :=
      broadcast_attempt ρ o (sw.Disconnect R E).1 { ann with DST := "" } R rfl a ha
    rw [route_Disconnect] at hw
    by_cases hE : a.dst = E
    · simp [hE] at hw
    · have hne : ¬ (R = R ∧ a.dst = E) := fun h => hE h.2
      rw [if_neg hne] at hw
      exact ⟨hE, w, hw, htx⟩
  refine ⟨hret, ?_, ?_, hlog, ?_⟩
  · rw [route_Disconnect]; simp
  · intro R1 E1 hne
    rw [route_Disconnect, if_neg hne]
  · intro w _ hother ρ o ann a ha
    obtain ⟨hE, w1, hw1, htx⟩ := hlog ρ o ann a ha
    rw [htx]
    exact hother a.dst w1 hE hw1

/-- C3 at `demoSwitch`: once `b` is disconnected from `r1` the broadcast of
`a` calls `send` for `c` only, and TX 4 of `b` is not used. -/
theorem disconnect_stops_delivery_witness :
    ((demoSwitch.Disconnect "r1" "b").1.Broadcast RangeOrder.stored (fun _ => .txReady)
        demoOffer "r1").log = [⟨"c", 6, demoOffer, .txReady⟩]
    ∧ ∀ a ∈ ((demoSwitch.Disconnect "r1" "b").1.Broadcast RangeOrder.stored
        (fun _ => .txReady) demoOffer "r1").log, a.tx ≠ 4 := by
  refine ⟨by decide, ?_⟩
  refine (disconnect_stops_delivery demoSwitch "r1" "b").2.2.2.2 ⟨3, 4⟩ (by decide) ?_
    RangeOrder.stored (fun _ => .txReady) demoOffer
  intro E1 w1 hE hw
  rw [demoSwitch, route_Connect, route_Connect, route_Connect, route_Connect] at hw
  have hnew : NewSwitch.route "r1" E1 = none := rfl
  rw [hnew] at hw
  split_ifs at hw with h1 h2 h3 h4
  · exact absurd h1.1 (by decide)
  · cases hw; decide
  · exact absurd h3.2 hE
  · cases hw; decide

/-! ## Unicast without a route -/

/-- C4: for an announcement whose dst is non-empty and not registered under R
(also when R has no table entry), `forward` calls `send` on no wire, returns
`sent = false` and leaves the routing table as it was; so does the forwarding
loop that called it, which only logs. -/
theorem unicast_without_route_is_dropped (ρ : RangeOrder) (o : String → SelectCase)
    (sw : Switch) (ann : Announcement) (R : String)
    (hdst : ann.DST ≠ "") (hnone : sw.route R ann.DST = none) :
    (sw.forward ρ o ann R).log = []
    ∧ (sw.forward ρ o ann R).ret = false
    ∧ (sw.forward ρ o ann R).sw = sw
    ∧ (sw.forwardAnnouncementsStep ρ o R ann).log = []
    ∧ (sw.forwardAnnouncementsStep ρ o R ann).sw = sw := by
  obtain ⟨hsw, hret, hlog⟩ := forward_unicast ρ o sw ann R hdst
  rw [hnone] at hret hlog
  refine ⟨hlog, hret, hsw, ?_, ?_⟩
  · unfold Switch.forwardAnnouncementsStep
    split
    · rfl
    · exact hlog
  · unfold Switch.forwardAnnouncementsStep
    split
    · rfl
    · exact hsw

/-- C4 at `demoSwitch`: `a` addresses `d`, which is registered in `r2` only,
from room `r1`; and `a` addresses `b` in a room that has no entry. -/
theorem unicast_without_route_is_dropped_witness :
    ((demoSwitch.forward RangeOrder.stored (fun _ => .txReady)
        ⟨"d", "a", "offer", "sdp"⟩ "r1").log = []
      ∧ (demoSwitch.forward RangeOrder.stored (fun _ => .txReady)
        ⟨"d", "a", "offer", "sdp"⟩ "r1").ret = false)
    ∧ (demoSwitch.forward RangeOrder.stored (fun _ => .txReady)
        ⟨"b", "a", "offer", "sdp"⟩ "r9").log = [] :=
  ⟨⟨(unicast_without_route_is_dropped RangeOrder.stored (fun _ => .txReady) demoSwitch
      ⟨"d", "a", "offer", "sdp"⟩ "r1" (by decide) (by decide)).1,
    (unicast_without_route_is_dropped RangeOrder.stored (fun _ => .txReady) demoSwitch
      ⟨"d", "a", "offer", "sdp"⟩ "r1" (by decide) (by decide)).2.1⟩,
   (unicast_without_route_is_dropped RangeOrder.stored (fun _ => .txReady) demoSwitch
      ⟨"b", "a", "offer", "sdp"⟩ "r9" (by decide) (by decide)).1⟩

/-! ## The source of a delivered announcement -/

/-- C5: on the connection authenticated as U, a decoded client message m that
the receiver hands over goes to the inbound channel as m with src set to U
(dst, type and payload as in m), whatever src m carried; everything the
receiver hands over is of that form; and every call of `send` that the
forwarding loop makes for such an announcement offers it unchanged, so its
src is U. -/
theorem delivered_src_is_sender (U : String) :
    (∀ m rest, webSocketReceiver U (.message (some m) true :: rest)
        = ⟨m.DST, U, m.Typ, m.Payload⟩ :: webSocketReceiver U rest)
    ∧ (∀ events, ∀ ann ∈ webSocketReceiver U events,
        ∃ m, RecvEvent.message (some m) true ∈ events
          ∧ ann = ⟨m.DST, U, m.Typ, m.Payload⟩)
    ∧ (∀ ρ o sw R ann, ∀ a ∈ (Switch.forward ρ o sw ann R).log, a.ann = ann)
    ∧ (∀ events ρ o sw R, ∀ ann ∈ webSocketReceiver U events,
        ∀ a ∈ (Switch.forwardAnnouncementsStep ρ o sw R ann).log,
          a.ann = ann ∧ a.ann.SRC = U) := by
  have hrecv : ∀ events, ∀ ann ∈ webSocketReceiver U events,
      ∃ m, RecvEvent.message (some m) true ∈ events
        ∧ ann = ⟨m.DST, U, m.Typ, m.Payload⟩ := by
    intro events
    induction events with
    | nil => intro ann h; simp [webSocketReceiver] at h
    | cons ev rest ih =>
      intro ann h
      cases ev with
      | ctxDone => simp [webSocketReceiver] at h
      | readError => simp [webSocketReceiver] at h
      | message decoded handed =>
        cases decoded with
        | none =>
          obtain ⟨m, hm, rfl⟩ := ih ann (by simpa [webSocketReceiver] using h)
          exact ⟨m, List.mem_cons_of_mem _ hm, rfl⟩
        | some m =>
          cases handed with
          | false => simp [webSocketReceiver] at h
          | true =>
            simp only [webSocketReceiver, if_true, List.mem_cons] at h
            rcases h with h | h
            · exact ⟨m, List.mem_cons_self _ _, h⟩
            · obtain ⟨m1, hm1, rfl⟩ := ih ann h
              exact ⟨m1, List.mem_cons_of_mem _ hm1, rfl⟩
  refine ⟨?_, hrecv, ?_, ?_⟩
  · intro m rest; simp [webSocketReceiver]
  · intro ρ o sw R ann a ha
    exact forward_offers_its_argument ρ o sw ann R a ha
  · intro events ρ o sw R ann hann a ha
    obtain ⟨m, _, rfl⟩ := hrecv events ann hann
    have hstep : a ∈ (Switch.forward ρ o sw ⟨m.DST, U, m.Typ, m.Payload⟩ R).log := by
      unfold Switch.forwardAnnouncementsStep at ha
      split at ha
      · simp at ha
      · exact ha
    have := forward_offers_its_argument ρ o sw _ R a hstep
    exact ⟨this, by rw [this]⟩

/-- C5 at `demoSwitch`: the client of `a` sends an offer that names `c` as its
source; `b` is offered it with src `a`. -/
theorem delivered_src_is_sender_witness :
    webSocketReceiver "a" [.message (some ⟨"b", "c", "offer", "sdp"⟩) true]
      = [⟨"b", "a", "offer", "sdp"⟩]
    ∧ ∀ a ∈ (demoSwitch.forwardAnnouncementsStep RangeOrder.stored (fun _ => .txReady) "r1"
        ⟨"b", "a", "offer", "sdp"⟩).log, a.ann = ⟨"b", "a", "offer", "sdp"⟩ ∧ a.ann.SRC = "a" :=
  ⟨(delivered_src_is_sender "a").1 ⟨"b", "c", "offer", "sdp"⟩ [],
   (delivered_src_is_sender "a").2.2.2 [.message (some ⟨"b", "c", "offer", "sdp"⟩) true]
      RangeOrder.stored (fun _ => .txReady) demoSwitch "r1" ⟨"b", "a", "offer", "sdp"⟩
      (by decide)⟩

/-! ## Creating a signaling session -/

/-- C6: `CreateSignalingSession(roomID, userID, wire)` returns the join of
`ErrGet` and the store's `ErrRoomNotFound` when the room does not exist and
`ErrNotAMember` when the room exists without `userID` among its participants;
in both cases the service (store and routing table) is as before and nothing
is started, `Switch.Connect` not being called.  When `userID` is a member it
returns nil with the switch left by `Switch.Connect`, whose forwarding loop is
started, followed by the `joined` broadcast. -/
theorem createSignalingSession_checks_membership (svc : Service) (roomID userID : String)
    (wire : Wire) :
    (svc.store.db.lookup roomID = none →
        (svc.CreateSignalingSession roomID userID wire).err
            = some (.joinError [ErrGet, ErrRoomNotFound])
        ∧ Error.Is ErrGet (.joinError [ErrGet, ErrRoomNotFound]) = true
        ∧ Error.Is ErrRoomNotFound (.joinError [ErrGet, ErrRoomNotFound]) = true
        ∧ (svc.CreateSignalingSession roomID userID wire).svc = svc
        ∧ (svc.CreateSignalingSession roomID userID wire).spawned = [])
    ∧ (∀ room, svc.store.db.lookup roomID = some room →
        room.Participants.lookup userID = none →
        (svc.CreateSignalingSession roomID userID wire).err = some ErrNotAMember
        ∧ (svc.CreateSignalingSession roomID userID wire).svc = svc
        ∧ (svc.CreateSignalingSession roomID userID wire).spawned = [])
    ∧ (∀ room p, svc.store.db.lookup roomID = some room →
        room.Participants.lookup userID = some p →
        (svc.CreateSignalingSession roomID userID wire).err = none
        ∧ (svc.CreateSignalingSession roomID userID wire).svc.sw
            = (svc.sw.Connect roomID userID wire).sw
        ∧ (svc.CreateSignalingSession roomID userID wire).svc.sw.route roomID userID
            = some wire
        ∧ (svc.CreateSignalingSession roomID userID wire).svc.store = svc.store
        ∧ (svc.CreateSignalingSession roomID userID wire).spawned
            = [.forwardAnnouncements roomID wire.RX,
               .broadcast ⟨"", userID, AnnouncementTypeJoined, ""⟩ roomID]) := by
  refine ⟨?_, ?_, ?_⟩
  · intro h
    refine ⟨?_, by decide, by decide, ?_, ?_⟩ <;>
      simp [Service.CreateSignalingSession, MemStore.GetRoom, h, errorsJoin]
  · intro room h hu
    refine ⟨?_, ?_, ?_⟩ <;>
      simp [Service.CreateSignalingSession, MemStore.GetRoom, h, hu]
  · intro room p h hu
    refine ⟨?_, ?_, ?_, ?_, ?_⟩
    · simp [Service.CreateSignalingSession, MemStore.GetRoom, h, hu, Switch.Connect]
    · simp [Service.CreateSignalingSession, MemStore.GetRoom, h, hu, Switch.Connect]
    · have : (svc.CreateSignalingSession roomID userID wire).svc.sw
          = (svc.sw.Connect roomID userID wire).sw := by
        simp [Service.CreateSignalingSession, MemStore.GetRoom, h, hu, Switch.Connect]
      rw [this, route_Connect]; simp
    · simp [Service.CreateSignalingSession, MemStore.GetRoom, h, hu, Switch.Connect]
    · simp [Service.CreateSignalingSession, MemStore.GetRoom, h, hu, Switch.Connect]

/-- C6 at `demoService`: no room `r9`; `z` is not a member of `r1`; `a` is and
gets its wire registered. -/
theorem createSignalingSession_checks_membership_witness :
    (demoService.CreateSignalingSession "r9" "a" ⟨1, 2⟩).err
        = some (.joinError [ErrGet, ErrRoomNotFound])
    ∧ (demoService.CreateSignalingSession "r1" "z" ⟨1, 2⟩).err = some ErrNotAMember
    ∧ (demoService.CreateSignalingSession "r1" "z" ⟨1, 2⟩).svc = demoService
    ∧ (demoService.CreateSignalingSession "r1" "a" ⟨1, 2⟩).err = none
    ∧ (demoService.CreateSignalingSession "r1" "a" ⟨1, 2⟩).svc.sw.route "r1" "a"
        = some ⟨1, 2⟩ :=
  have hroom : demoService.store.db.lookup "r1"
      = some ⟨"r1", (∅ : GoMap Participant).insert "a" ⟨"a"⟩⟩ := rfl
  ⟨((createSignalingSession_checks_membership demoService "r9" "a" ⟨1, 2⟩).1 rfl).1,
   ((createSignalingSession_checks_membership demoService "r1" "z" ⟨1, 2⟩).2.1 _ hroom rfl).1,
   ((createSignalingSession_checks_membership demoService "r1" "z" ⟨1, 2⟩).2.1 _ hroom rfl).2.1,
   ((createSignalingSession_checks_membership demoService "r1" "a" ⟨1, 2⟩).2.2 _ ⟨"a"⟩ hroom
      rfl).1,
   ((createSignalingSession_checks_membership demoService "r1" "a" ⟨1, 2⟩).2.2 _ ⟨"a"⟩ hroom
      rfl).2.2.1⟩

/-! ## Room store -/

theorem insert_length_of_mem {V : Type} (s : GoMap V) (a : String) (b : V) (h : a ∈ s) :
    (s.insert a b).entries.length = s.entries.length := by
  rw [AList.insert_entries]
  obtain ⟨b1, l1, l2, _, hl, hk⟩ := List.exists_of_kerase (AList.mem_keys.mp h)
  rw [hk, hl]
  simp only [List.length_cons, List.length_append]
  omega

theorem insert_length_of_not_mem {V : Type} (s : GoMap V) (a : String) (b : V) (h : a ∉ s) :
    (s.insert a b).entries.length = s.entries.length + 1 := by
  rw [AList.insert_entries_of_neg h]
  rfl

/-- C7: `CreateOrJoinRoom(r, u)` fails exactly when room r exists, has
exactly 2 participants and u is not one of them; the error is then
`ErrRoomIsFull` and the store is returned as it was. -/
theorem createOrJoinRoom_fails_iff_full (ms : MemStore) (r u : String) :
    ((∃ e, (ms.CreateOrJoinRoom r u).2 = .error e)
      ↔ ∃ room, ms.db.lookup r = some room ∧ room.Participants.entries.length = 2
          ∧ u ∉ room.Participants)
    ∧ (∀ e, (ms.CreateOrJoinRoom r u).2 = .error e →
        e = ErrRoomIsFull ∧ (ms.CreateOrJoinRoom r u).1 = ms) := by
  unfold MemStore.CreateOrJoinRoom
  cases h : ms.db.lookup r with
  | none => simp
  | some room =>
    by_cases hfull : room.Participants.entries.length = defaultMaxParticipants
        ∧ room.Participants.lookup u = none
    · have h2 : room.Participants.entries.length = 2 := hfull.1
      have hu : u ∉ room.Participants := AList.lookup_eq_none.mp hfull.2
      have hmax : defaultMaxParticipants = 2 := rfl
      simp [hfull, h2, hu, hmax]
    · have hneg : ¬ (room.Participants.entries.length = 2 ∧ u ∉ room.Participants) := by
        intro hc
        exact hfull ⟨hc.1, AList.lookup_eq_none.mpr hc.2⟩
      simp only [hfull, if_false]
      constructor
      · constructor
        · rintro ⟨e, he⟩; cases he
        · rintro ⟨room1, hr, hc⟩
          cases hr
          exact absurd hc hneg
      · intro e he; cases he

/-- C7 at `demoFullStore`: a third user `c` joining the room of `a` and `b`
fails with room-full and the store is unchanged. -/
theorem createOrJoinRoom_fails_iff_full_witness :
    (∃ e, (demoFullStore.CreateOrJoinRoom "r1" "c").2 = .error e)
    ∧ (demoFullStore.CreateOrJoinRoom "r1" "c").2 = .error ErrRoomIsFull
    ∧ (demoFullStore.CreateOrJoinRoom "r1" "c").1 = demoFullStore :=
  have hroom : demoFullStore.db.lookup "r1"
      = some ⟨"r1", ((∅ : GoMap Participant).insert "a" ⟨"a"⟩).insert "b" ⟨"b"⟩⟩ := rfl
  have hex : ∃ e, (demoFullStore.CreateOrJoinRoom "r1" "c").2 = .error e :=
    (createOrJoinRoom_fails_iff_full demoFullStore "r1" "c").1.mpr
      ⟨_, hroom, rfl, AList.lookup_eq_none.mp rfl⟩
  ⟨hex, rfl, ((createOrJoinRoom_fails_iff_full demoFullStore "r1" "c").2 ErrRoomIsFull rfl).2⟩

/-- C8: when u is already a participant of r (also when r is full),
`CreateOrJoinRoom(r, u)` succeeds and every room of the store keeps its set of
participants; and whenever a call succeeds, calling again with the same
arguments returns the same room and leaves the same store. -/
theorem createOrJoinRoom_idempotent (ms : MemStore) (r u : String) :
    (∀ room, ms.db.lookup r = some room → u ∈ room.Participants →
        (∃ room1, (ms.CreateOrJoinRoom r u).2 = .ok room1)
        ∧ ∀ r1, (ms.CreateOrJoinRoom r u).1.members r1 = ms.members r1)
    ∧ (∀ room1, (ms.CreateOrJoinRoom r u).2 = .ok room1 →
        (ms.CreateOrJoinRoom r u).1.CreateOrJoinRoom r u
          = ((ms.CreateOrJoinRoom r u).1, .ok room1)) := by
  constructor
  · intro room h hu
    have hlook : room.Participants.lookup u ≠ none := fun hc =>
      (AList.lookup_eq_none.mp hc) hu
    have hcond : ¬ (room.Participants.entries.length = defaultMaxParticipants
        ∧ room.Participants.lookup u = none) := fun hc => hlook hc.2
    constructor
    · simp [MemStore.CreateOrJoinRoom, h, hcond]
    · intro r1
      simp only [MemStore.CreateOrJoinRoom, h, hcond, if_false, MemStore.members]
      by_cases hr : r1 = r
      · subst hr
        rw [AList.lookup_insert, h]
        simp only [Option.map_some']
        congr 1
        ext x
        simp only [List.mem_toFinset, ← AList.mem_keys, AList.mem_insert]
        constructor
        · rintro (hx | hx)
          · rw [hx]; exact hu
          · exact hx
        · intro hx; exact Or.inr hx
      · rw [AList.lookup_insert_ne hr]
  · intro room1 hok
    unfold MemStore.CreateOrJoinRoom at hok ⊢
    cases h : ms.db.lookup r with
    | none =>
      simp only [h] at hok ⊢
      cases hok
      have hmax : defaultMaxParticipants = 2 := rfl
      simp [AList.insert_insert, hmax, AList.insert_entries]
    | some room =>
      simp only [h] at hok ⊢
      by_cases hcond : room.Participants.entries.length = defaultMaxParticipants
          ∧ room.Participants.lookup u = none
      · simp [hcond] at hok
      · simp only [hcond, if_false] at hok ⊢
        cases hok
        simp [AList.insert_insert]

/-- C8 at `demoFullStore`: `a` joins the full room `r1` again; the call
succeeds and the room keeps its participants. -/
theorem createOrJoinRoom_idempotent_witness :
    (∃ room1, (demoFullStore.CreateOrJoinRoom "r1" "a").2 = .ok room1)
    ∧ (demoFullStore.CreateOrJoinRoom "r1" "a").1.members "r1" = demoFullStore.members "r1" :=
  have hroom : demoFullStore.db.lookup "r1"
      = some ⟨"r1", ((∅ : GoMap Participant).insert "a" ⟨"a"⟩).insert "b" ⟨"b"⟩⟩ := rfl
  ⟨((createOrJoinRoom_idempotent demoFullStore "r1" "a").1 _ hroom
      (AList.lookup_isSome.mp (by decide))).1,
   ((createOrJoinRoom_idempotent demoFullStore "r1" "a").1 _ hroom
      (AList.lookup_isSome.mp (by decide))).2 "r1"⟩

theorem bounded_NewMemStore : NewMemStore.Bounded := by
  intro r room h
  simp [NewMemStore] at h

theorem bounded_CreateOrJoinRoom (ms : MemStore) (hb : ms.Bounded) (r u : String) :
    (ms.CreateOrJoinRoom r u).1.Bounded := by
  unfold MemStore.CreateOrJoinRoom
  cases h : ms.db.lookup r with
  | none =>
    intro r1 room1 h1
    by_cases hr : r1 = r
    · subst hr
      simp only [AList.lookup_insert, Option.some.injEq] at h1
      subst h1
      have hlen : ((∅ : GoMap Participant).insert u ⟨u⟩).entries.length = 1 := rfl
      simp only [hlen, defaultMaxParticipants]
      omega
    · simp only [AList.lookup_insert_ne hr] at h1
      exact hb r1 room1 h1
  | some room =>
    by_cases hcond : room.Participants.entries.length = defaultMaxParticipants
        ∧ room.Participants.lookup u = none
    · simp only [hcond, and_self, if_true]
      exact hb
    · simp only [hcond, if_false]
      intro r1 room1 h1
      by_cases hr : r1 = r
      · subst hr
        simp only [AList.lookup_insert, Option.some.injEq] at h1
        subst h1
        obtain ⟨hlo, hhi⟩ := hb r1 room h
        by_cases hu : u ∈ room.Participants
        · simp only [insert_length_of_mem _ _ _ hu]
          exact ⟨hlo, hhi⟩
        · simp only [insert_length_of_not_mem _ _ _ hu]
          have hne : room.Participants.entries.length ≠ defaultMaxParticipants := fun hc =>
            hcond ⟨hc, AList.lookup_eq_none.mpr hu⟩
          constructor
          · omega
          · omega
      · simp only [AList.lookup_insert_ne hr] at h1
        exact hb r1 room1 h1

theorem bounded_joinAll (calls : List (String × String)) :
    ∀ ms : MemStore, ms.Bounded → (ms.joinAll calls).Bounded := by
  induction calls with
  | nil => intro ms hb; exact hb
  | cons c rest ih =>
    intro ms hb
    obtain ⟨r, u⟩ := c
    exact ih _ (bounded_CreateOrJoinRoom ms hb r u)

/-- C9: in every store reached from `NewMemStore()` by a sequence of
`CreateOrJoinRoom` calls, successful or not, every room has at least 1 and at
most 2 participants; and a join there to an id without a room succeeds and
creates the room with exactly one participant, the joiner. -/
theorem reachable_rooms_have_one_or_two (calls : List (String × String)) :
    (∀ r room, (NewMemStore.joinAll calls).db.lookup r = some room →
        1 ≤ room.Participants.entries.length ∧ room.Participants.entries.length ≤ 2)
    ∧ (∀ r u, (NewMemStore.joinAll calls).db.lookup r = none →
        ∃ room, ((NewMemStore.joinAll calls).CreateOrJoinRoom r u).2 = .ok room
          ∧ ((NewMemStore.joinAll calls).CreateOrJoinRoom r u).1.db.lookup r = some room
          ∧ room.Participants.entries = [⟨u, ⟨u⟩⟩]) := by
  constructor
  · exact bounded_joinAll calls NewMemStore bounded_NewMemStore
  · intro r u h
    refine ⟨⟨r, (∅ : GoMap Participant).insert u ⟨u⟩⟩, ?_, ?_, rfl⟩
    · simp [MemStore.CreateOrJoinRoom, h]
    · simp [MemStore.CreateOrJoinRoom, h]

/-- C9 after `a`, `b` and then `c` have asked to join `r1`: the room has two
participants; and `c` asking for the new room `r2` is alone in it. -/
theorem reachable_rooms_have_one_or_two_witness :
    (∀ room, (NewMemStore.joinAll [("r1", "a"), ("r1", "b"), ("r1", "c")]).db.lookup "r1"
        = some room →
        1 ≤ room.Participants.entries.length ∧ room.Participants.entries.length ≤ 2)
    ∧ ∃ room, ((NewMemStore.joinAll [("r1", "a"), ("r1", "b"), ("r1", "c")]).CreateOrJoinRoom
          "r2" "c").2 = .ok room
        ∧ room.Participants.entries = [⟨"c", ⟨"c"⟩⟩] :=
  ⟨(reachable_rooms_have_one_or_two [("r1", "a"), ("r1", "b"), ("r1", "c")]).1 "r1",
   let ⟨room, h1, _, h3⟩ :=
     (reachable_rooms_have_one_or_two [("r1", "a"), ("r1", "b"), ("r1", "c")]).2 "r2" "c" rfl
   ⟨room, h1, h3⟩⟩

/-! ## Cancellation and the result of `forward` -/

/-- C10, as stated, fails: at `demoSwitch` the broadcast of `a` in `r1` returns
`false` when its first send is canceled, and `false` as well when every send
times out or when a unicast finds no route. -/
theorem forward_canceled_counterexample :
    (∃ a ∈ (demoSwitch.forward RangeOrder.stored (fun _ => .ctxDone) demoOffer "r1").log,
        a.fired = .ctxDone)
    ∧ (demoSwitch.forward RangeOrder.stored (fun _ => .ctxDone) demoOffer "r1").ret = false
    ∧ (demoSwitch.forward RangeOrder.stored (fun _ => .timer) demoOffer "r1").log
        = [⟨"c", 6, demoOffer, .timer⟩, ⟨"b", 4, demoOffer, .timer⟩]
    ∧ (demoSwitch.forward RangeOrder.stored (fun _ => .timer) demoOffer "r1").ret = false
    ∧ (demoSwitch.forward RangeOrder.stored (fun _ => .txReady)
        ⟨"z", "a", "offer", "sdp"⟩ "r1").log = []
    ∧ (demoSwitch.forward RangeOrder.stored (fun _ => .txReady)
        ⟨"z", "a", "offer", "sdp"⟩ "r1").ret = false := by
  decide

/-- C10 (amended): `send` reports a cancellation as `(sent, canceled) =
(false, true)`, apart from a timeout `(false, false)` and a delivery
`(true, false)`, and a canceled send is the last one `forward` makes; but
`forward` returns `sent` alone, true exactly when one of its sends was
delivered, so a call in which nothing was delivered returns `false` whether
a send was canceled, timed out or had no route. -/
theorem forward_returns_sent_only (ρ : RangeOrder) (o : String → SelectCase) (sw : Switch)
    (ann : Announcement) (R : String) :
    (∀ tx, send .ctxDone ann tx = (false, true) ∧ send .timer ann tx = (false, false)
        ∧ send .txReady ann tx = (true, false))
    ∧ (∀ a ∈ (sw.forward ρ o ann R).log.dropLast, a.fired ≠ .ctxDone)
    ∧ ((sw.forward ρ o ann R).ret = true
        ↔ ∃ a ∈ (sw.forward ρ o ann R).log, a.fired = .txReady)
    ∧ ((∀ a ∈ (sw.forward ρ o ann R).log, a.fired ≠ .txReady) →
        (sw.forward ρ o ann R).ret = false) := by
  have hiff : (sw.forward ρ o ann R).ret = true
      ↔ ∃ a ∈ (sw.forward ρ o ann R).log, a.fired = .txReady := by
    by_cases hdst : ann.DST = ""
    · obtain ⟨_, hret, hlog⟩ := forward_broadcast ρ o sw ann R hdst
      rw [hret, hlog, List.any_eq_true]
      simp
    · obtain ⟨_, hret, hlog⟩ := forward_unicast ρ o sw ann R hdst
      rw [hret, hlog]
      cases sw.route R ann.DST <;> simp
  refine ⟨fun tx => ⟨rfl, rfl, rfl⟩, ?_, hiff, ?_⟩
  · intro a ha
    by_cases hdst : ann.DST = ""
    · rw [(forward_broadcast ρ o sw ann R hdst).2.2] at ha
      exact fanOut_dropLast o ann _ a ha
    · rw [(forward_unicast ρ o sw ann R hdst).2.2] at ha
      cases hr : sw.route R ann.DST <;> simp [hr] at ha
  · intro hnone
    cases hret : (sw.forward ρ o ann R).ret with
    | false => rfl
    | true =>
      obtain ⟨a, ha, hf⟩ := hiff.mp hret
      exact absurd hf (hnone a ha)

/-! ## The send loop and write failures -/

/-- The loop is left in the first pass that ends in `break SendLoop`, and no
later event is looked at. -/
theorem webSocketSender_stops_at_break (pre post : List SenderEvent) (ev : SenderEvent)
    (hpre : ∀ e ∈ pre, e.breaks = false) (hev : ev.breaks = true) :
    webSocketSender (pre ++ ev :: post) = webSocketSender (pre ++ [ev])
    ∧ (webSocketSender (pre ++ ev :: post)).passes = pre.length + 1
    ∧ (webSocketSender (pre ++ ev :: post)).exited = true := by
  induction pre with
  | nil =>
    cases ev with
    | ctxDone => simp [webSocketSender]
    | txClosed => simp [webSocketSender]
    | tick d p =>
      cases d <;> simp [SenderEvent.breaks] at hev
      simp [webSocketSender]
    | outbound msg m d w wr c =>
      cases m <;> cases d <;> cases w <;> cases wr <;> cases c <;>
        simp [SenderEvent.breaks] at hev <;> simp [webSocketSender]
  | cons e rest ih =>
    have hrest : ∀ e1 ∈ rest, e1.breaks = false := fun e1 h1 =>
      hpre e1 (List.mem_cons_of_mem _ h1)
    have he : e.breaks = false := hpre e (List.mem_cons_self _ _)
    obtain ⟨h1, h2, h3⟩ := ih hrest
    rw [h1] at h2 h3
    cases e with
    | ctxDone => simp [SenderEvent.breaks] at he
    | txClosed => simp [SenderEvent.breaks] at he
    | tick d p =>
      cases d <;> simp [SenderEvent.breaks] at he
      simp [webSocketSender, SenderRun.after, h1, h2, h3]
    | outbound msg m d w wr c =>
      cases m <;> cases d <;> cases w <;> cases wr <;> cases c <;>
        simp [SenderEvent.breaks] at he
      simp [webSocketSender, SenderRun.after, h1, h2, h3]

/-- C11: the send loop does not leave on a failed keepalive ping.  With the
write deadline set and the ping write failing in two ticks in a row, the loop
makes both ping writes and is only left by the cancellation that follows;
whereas a failure to set the write deadline in the first tick leaves the loop
at once, as every failure of the message branch does. -/
theorem sender_stays_after_failed_ping :
    webSocketSender [.tick true false, .tick true false, .ctxDone]
      = ⟨[.SetWriteDeadline true, .WritePing false, .SetWriteDeadline true, .WritePing false],
          3, true⟩
    ∧ webSocketSender [.tick true false, .outbound demoOffer true true true true true]
      = ⟨[.SetWriteDeadline true, .WritePing false, .SetWriteDeadline true, .NextWriter true,
          .Write demoOffer true, .Close true], 2, false⟩
    ∧ webSocketSender [.tick false true, .tick true true, .ctxDone]
      = ⟨[.SetWriteDeadline false], 1, true⟩
    ∧ webSocketSender [.outbound demoOffer true true true false true, .tick true true]
      = ⟨[.SetWriteDeadline true, .NextWriter true, .Write demoOffer false], 1, true⟩ := by
  decide

/-! ## Teardown of a replaced session -/

/-- Every call of `send` made by `forward`, broadcast or unicast, is made for
an endpoint registered in the room, on the TX of its wire. -/
theorem forward_attempt_routed (ρ : RangeOrder) (o : String → SelectCase) (sw : Switch)
    (ann : Announcement) (R : String) (a : SendAttempt)
    (ha : a ∈ (sw.forward ρ o ann R).log) :
    ∃ w, sw.route R a.dst = some w ∧ a.tx = w.TX := by
  by_cases hdst : ann.DST = ""
  · exact (broadcast_attempt ρ o sw ann R hdst a ha).2.2.2
  · rw [(forward_unicast ρ o sw ann R hdst).2.2] at ha
    cases hr : sw.route R ann.DST with
    | none => simp [hr] at ha
    | some w =>
      simp only [hr, List.mem_singleton] at ha
      subst ha
      exact ⟨w, hr, rfl⟩

theorem createSignalingSession_member (svc : Service) (R E : String) (w : Wire) (room : Room)
    (p : Participant) (hroom : svc.store.db.lookup R = some room)
    (hmem : room.Participants.lookup E = some p) :
    (svc.CreateSignalingSession R E w).svc = ⟨svc.store, (svc.sw.Connect R E w).sw⟩ := by
  simp [Service.CreateSignalingSession, MemStore.GetRoom, hroom, hmem, Switch.Connect]

theorem destroySession_eq (svc : Service) (R E : String) :
    destroySession svc R E = ⟨svc.store, (svc.sw.Disconnect R E).1⟩ := by
  unfold destroySession Service.DeleteSignalingSession Switch.Disconnect
  cases svc.sw.fwd.lookup R <;> rfl

/-- C12: `Disconnect` removes whatever wire is registered for `(R, E)`.  After
`Connect(R, E, w1)` and `Connect(R, E, w2)` the table maps `(R, E)` to `w2`;
after the `Disconnect(R, E)` of the first session's teardown it has no entry
for `(R, E)`, so no later `forward` in R calls `send` for E (every call is
for another endpoint, registered before, on its own TX) and a unicast to E
makes no call and returns `false`.  The same holds through the service:
two `CreateSignalingSession` calls of a member followed by `destroySession`,
which is given the ids only, leave exactly that table. -/
theorem teardown_unroutes_live_reconnection (svc : Service) (R E : String) (w1 w2 : Wire) :
    ((svc.sw.Connect R E w1).sw.Connect R E w2).sw.route R E = some w2
    ∧ (((svc.sw.Connect R E w1).sw.Connect R E w2).sw.Disconnect R E).1.route R E = none
    ∧ (∀ ρ o ann,
        ∀ a ∈ ((((svc.sw.Connect R E w1).sw.Connect R E w2).sw.Disconnect R E).1.forward
            ρ o ann R).log,
          a.dst ≠ E ∧ ∃ w, svc.sw.route R a.dst = some w ∧ a.tx = w.TX)
    ∧ (∀ ρ o ann, ann.DST = E → E ≠ "" →
        ((((svc.sw.Connect R E w1).sw.Connect R E w2).sw.Disconnect R E).1.forward
            ρ o ann R).log = []
        ∧ ((((svc.sw.Connect R E w1).sw.Connect R E w2).sw.Disconnect R E).1.forward
            ρ o ann R).ret = false)
    ∧ (∀ room p, svc.store.db.lookup R = some room → room.Participants.lookup E = some p →
        ((svc.CreateSignalingSession R E w1).svc.CreateSignalingSession R E w2).svc.sw.route
            R E = some w2
        ∧ (destroySession
            ((svc.CreateSignalingSession R E w1).svc.CreateSignalingSession R E w2).svc
            R E).sw
          = (((svc.sw.Connect R E w1).sw.Connect R E w2).sw.Disconnect R E).1) := by
  have hroute : ∀ R1 E1,
      (((svc.sw.Connect R E w1).sw.Connect R E w2).sw.Disconnect R E).1.route R1 E1
        = if R1 = R ∧ E1 = E then none else svc.sw.route R1 E1 := by
    intro R1 E1
    rw [route_Disconnect]
    by_cases h : R1 = R ∧ E1 = E
    · simp [h]
    · rw [if_neg h, if_neg h, route_Connect, if_neg h, route_Connect, if_neg h]
  have hbefore : ((svc.sw.Connect R E w1).sw.Connect R E w2).sw.route R E = some w2 := by
    rw [route_Connect]; simp
  have hnone : (((svc.sw.Connect R E w1).sw.Connect R E w2).sw.Disconnect R E).1.route R E
      = none := by
    rw [hroute]; simp
  refine ⟨hbefore, hnone, ?_, ?_, ?_⟩
  · intro ρ o ann a ha
    obtain ⟨w, hw, htx⟩ := forward_attempt_routed ρ o _ ann R a ha
    rw [hroute] at hw
    by_cases hE : a.dst = E
    · simp [hE] at hw
    · have hne : ¬ (R = R ∧ a.dst = E) := fun h => hE h.2
      rw [if_neg hne] at hw
      exact ⟨hE, w, hw, htx⟩
  · intro ρ o ann hdst hE
    have hd : ann.DST ≠ "" := by rw [hdst]; exact hE
    obtain ⟨_, hret, hlog⟩ := forward_unicast ρ o
      (((svc.sw.Connect R E w1).sw.Connect R E w2).sw.Disconnect R E).1 ann R hd
    rw [hdst, hnone] at hret hlog
    exact ⟨hlog, hret⟩
  · intro room p hroom hmem
    have h1 := createSignalingSession_member svc R E w1 room p hroom hmem
    have h2 := createSignalingSession_member (svc.CreateSignalingSession R E w1).svc R E w2
      room p (by rw [h1]; exact hroom) hmem
    rw [h1] at h2
    rw [h1, h2, destroySession_eq]
    exact ⟨hbefore, rfl⟩

/-- C12 at `demoService`: `a` opens a session in `r1` with wire TX 2, opens a
second one with wire TX 4, and the first is torn down; `a` has no route left,
and a unicast to `a` makes no call of `send`. -/
theorem teardown_unroutes_live_reconnection_witness :
    ((demoService.CreateSignalingSession "r1" "a" ⟨1, 2⟩).svc.CreateSignalingSession
        "r1" "a" ⟨3, 4⟩).svc.sw.route "r1" "a" = some ⟨3, 4⟩
    ∧ (destroySession
        ((demoService.CreateSignalingSession "r1" "a" ⟨1, 2⟩).svc.CreateSignalingSession
          "r1" "a" ⟨3, 4⟩).svc "r1" "a").sw.route "r1" "a" = none
    ∧ ((((demoService.sw.Connect "r1" "a" ⟨1, 2⟩).sw.Connect "r1" "a" ⟨3, 4⟩).sw.Disconnect
          "r1" "a").1.forward RangeOrder.stored (fun _ => .txReady)
          ⟨"a", "b", "offer", "sdp"⟩ "r1").log = [] := by
  have h := teardown_unroutes_live_reconnection demoService "r1" "a" ⟨1, 2⟩ ⟨3, 4⟩
  have hroom : demoService.store.db.lookup "r1"
      = some ⟨"r1", (∅ : GoMap Participant).insert "a" ⟨"a"⟩⟩ := rfl
  have hsvc := h.2.2.2.2 _ ⟨"a"⟩ hroom rfl
  refine ⟨hsvc.1, ?_, (h.2.2.2.1 RangeOrder.stored (fun _ => .txReady)
    ⟨"a", "b", "offer", "sdp"⟩ rfl (by decide)).1⟩
  rw [hsvc.2]
  exact h.2.1

end WebrtcPlayground
